import Mathlib

/-!
Verification of the resumable, chunked crawl-and-fetch workflow of
`seumter_scraper.py` (function `main` and its helpers).

The embedding represents strings (addresses, file contents) as `List Char`;
the external world (spreadsheet, browser session, download directory, upload
service) is supplied through oracles in an `Env` record, and `runMain`
reproduces the control flow of `main` line by line.
-/

/-- An address: a normalized location string. Represented as a list of
characters so that whitespace handling can be reasoned about directly. -/
abbrev Addr := List Char

/-! ## Ledger file model (`processed.txt`)

`main` lines 91-95 read the ledger with
`set(line.strip() for line in f if line.strip())`; lines 195-196 append
`addr + "\n"` verbatim. -/

/-- The whitespace characters removed by Python's `str.strip()` (restricted to
the ASCII whitespace characters, which are the ones that matter here). -/
def pyIsSpace (c : Char) : Bool :=
  c = ' ' || c = '\t' || c = '\n' || c = '\r' || c = '\x0b' || c = '\x0c'

/-- Python `str.strip()`: remove leading and trailing whitespace. -/
def stripChars (l : List Char) : List Char :=
  ((l.dropWhile pyIsSpace).reverse.dropWhile pyIsSpace).reverse

/-- Split a file's contents into lines at each newline character, as Python's
line iteration over a text file does (the trailing newline of each line is
removed afterwards by `strip`, so we drop the `'\n'` separators here). -/
def splitOnNl : List Char → List (List Char)
  | [] => [[]]
  | c :: rest =>
    match splitOnNl rest with
    | [] => [[c]]
    | l :: ls => if c = '\n' then [] :: l :: ls else (c :: l) :: ls

/-- `main` lines 91-95: the set of already-processed addresses read from the
ledger file: every line stripped, blank lines dropped.  (The Python code
builds a `set`; membership is what matters, so a list of the kept values is
an adequate representation.) -/
def loadCompleted (content : List Char) : List Addr :=
  ((splitOnNl content).map stripChars).filter (fun l => !l.isEmpty)

/-- `main` lines 195-196: the text appended to the ledger when an address is
recorded done: the address verbatim followed by a newline. -/
def markDoneText (addr : Addr) : List Char :=
  addr ++ ['\n']

/-- The text appended to the ledger over a run, given the addresses recorded
done in order. -/
def marksText (marked : List Addr) : List Char :=
  (marked.map markDoneText).flatten

/-! ## Address source model (the Excel file) -/

/-- The spreadsheet as `pd.read_excel` presents it: whether the required
address column is present, and the address cell of each row (`none` for a
missing/NaN cell). -/
structure ExcelTable where
  hasAddrCol : Bool
  rows : List (Option Addr)
deriving DecidableEq

/-- First-seen-order deduplication, as `pandas.Series.unique` performs it:
keep each value the first time it appears, drop later repetitions. -/
def dedupAux : List Addr → List Addr → List Addr
  | [], _ => []
  | a :: rest, seen =>
    if a ∈ seen then dedupAux rest seen else a :: dedupAux rest (a :: seen)

/-- `main` line 104: `df['주소'].dropna().unique().tolist()` — the address
cells with missing values dropped, deduplicated preserving first-seen order. -/
def all_addresses (df : ExcelTable) : List Addr :=
  dedupAux (df.rows.filterMap id) []

/-- `main` line 105: the addresses not in the processed set, in source order. -/
def target_addresses (addrs : List Addr) (completed : List Addr) : List Addr :=
  addrs.filter (fun a => decide (a ∉ completed))

/-- Configuration line 35: `CHUNK_SIZE = 50`. -/
def CHUNK_SIZE : Nat := 50

/-- `main` line 113: `target_addresses[:CHUNK_SIZE]`. -/
def current_chunk (addrs : List Addr) (completed : List Addr) : List Addr :=
  (target_addresses addrs completed).take CHUNK_SIZE

/-! ## Per-address fetch model (`process_address`, lines 241-281) -/

/-- The outcome of the browser interaction attempted for one address:
success, a timeout locating the search box (caught at line 246), or any
other exception raised during the steps (caught at line 279) — the flag
records whether that exception indicates the session itself is unusable
(e.g. an unexpected redirect to a login page). -/
inductive FetchOutcome where
  | ok
  | searchTimeout
  | exn (sessionUnusable : Bool)
deriving DecidableEq

/-- `process_address` (lines 241-281): returns `True` on success and `False`
otherwise. Every exception, including one indicating an unusable session,
is caught inside the function (lines 246-248 and 279-281) and yields
`False`; nothing propagates to the caller. -/
def process_address (outcome : FetchOutcome) : Bool :=
  match outcome with
  | .ok => true
  | .searchTimeout => false
  | .exn _ => false

/-! ## Environment and run result -/

/-- Python truthiness of an optional string, as used by
`if user_id and user_pw:` (line 156) and `if drive_creds_json and
drive_folder_id:` (line 186): `None` and the empty string are falsy. -/
def truthy : Option Addr → Bool
  | none => false
  | some s => !s.isEmpty

/-- The external world of one run of `main`. -/
structure Env where
  /-- Line 86: whether the Excel file exists. -/
  excelExists : Bool
  /-- Line 99: result of `pd.read_excel` (`none` if reading raises). -/
  excel : Option ExcelTable
  /-- Line 92: whether the ledger file exists. -/
  ledgerExists : Bool
  /-- Contents of the ledger file when it exists. -/
  ledgerContent : List Char
  /-- Line 71: `SEUMTER_ID` environment variable. -/
  userId : Option Addr
  /-- Line 72: `SEUMTER_PW` environment variable. -/
  userPw : Option Addr
  /-- Line 75: `GOOGLE_CREDENTIALS_JSON`. -/
  driveCreds : Option Addr
  /-- Line 76: `GOOGLE_DRIVE_FOLDER_ID`. -/
  driveFolder : Option Addr
  /-- Line 78: whether `GITHUB_ACTIONS == "true"` (headless/unattended). -/
  isGithubActions : Bool
  /-- Line 144: whether the browser launches successfully. -/
  launchOk : Bool
  /-- Line 153: whether `driver.get(TARGET_URL)` raises. -/
  navRaises : Bool
  /-- Lines 213-239: whether `perform_login` raises (it re-raises any
  failure after logging and a screenshot). -/
  loginRaises : Bool
  /-- Outcome of the browser interaction of `process_address` per address. -/
  fetch : Addr → FetchOutcome
  /-- Lines 173, 180-181: the new files attributed to an address by the
  before/after directory diff. -/
  newFiles : Addr → List Addr
  /-- `upload_to_drive` (lines 45-63): per-file upload outcome; the function
  catches its own exceptions and returns `True`/`False`. -/
  uploadOk : Addr → Bool

/-- How the run ended. -/
inductive EndState where
  /-- Line 88: Excel file missing, early return. -/
  | excelMissing
  /-- Line 118: `pd.read_excel` raised, early return. -/
  | excelReadError
  /-- Line 102: required address column absent, early return. -/
  | noAddrColumn
  /-- Line 111: no remaining addresses, completion reported, early return. -/
  | allDone
  /-- Line 148: browser failed to launch, early return. -/
  | launchFailed
  /-- Line 207: the `finally` block references `processed_count`, which is
  only assigned at line 167; an exception raised before that line makes the
  summary log itself raise `NameError`, skipping the summary and
  `driver.quit()`. -/
  | crashedInFinally
  /-- Lines 206-211: normal end through the `finally` block. -/
  | finished
deriving DecidableEq

/-- Everything observable about one run of `main`. -/
structure RunResult where
  /-- Addresses for which `process_address` was invoked, in order. -/
  attempted : List Addr
  /-- Addresses appended to the ledger this run, in order (line 195-196). -/
  marked : List Addr
  /-- Upload attempts performed, in order: file and `upload_to_drive` result. -/
  uploads : List (Addr × Bool)
  /-- Final contents of the ledger file. -/
  ledgerOut : List Char
  /-- Whether a browser session was started (line 144 reached and succeeded). -/
  sessionStarted : Bool
  /-- Line 164: whether the run blocked on `input()` for operator
  confirmation (local mode without credentials). -/
  operatorPrompt : Bool
  /-- Line 207: whether the final summary line was actually printed. -/
  summaryReported : Bool
  /-- The count the summary reported. -/
  summaryCount : Nat
  /-- Lines 208-209: whether `driver.quit()` was called. -/
  quitCalled : Bool
  outcome : EndState
deriving DecidableEq

/-- Ledger file contents at the start of the run (empty if the file does
not exist yet). -/
def startContent (env : Env) : List Char :=
  if env.ledgerExists = true then env.ledgerContent else []

/-- `main` lines 91-95: the processed set (empty when no ledger file). -/
def completedOf (env : Env) : List Addr :=
  if env.ledgerExists = true then loadCompleted env.ledgerContent else []

/-- Result of the early `return`s before the `try` at line 150: nothing
attempted, ledger untouched, no session, no summary. -/
def earlyResult (env : Env) (e : EndState) : RunResult :=
  { attempted := [], marked := [], uploads := [], ledgerOut := startContent env,
    sessionStarted := false, operatorPrompt := false, summaryReported := false,
    summaryCount := 0, quitCalled := false, outcome := e }

/-- Result when an exception is raised inside the `try` before
`processed_count` is assigned at line 167 (during `driver.get` or
`perform_login`): the `except` at line 202 handles it, then the `finally`
raises `NameError` while formatting the summary, so no summary is printed
and `driver.quit()` at line 209 is never reached. -/
def crashResult (env : Env) : RunResult :=
  { attempted := [], marked := [], uploads := [], ledgerOut := startContent env,
    sessionStarted := true, operatorPrompt := false, summaryReported := false,
    summaryCount := 0, quitCalled := false, outcome := .crashedInFinally }

/-- Line 186-189: the uploads performed for one address: only on success,
only when new files were detected, and only when both Drive settings are
truthy; `upload_to_drive` is called per file and its Boolean result is
logged but never used for control flow. -/
def uploadsFor (env : Env) (addr : Addr) : List (Addr × Bool) :=
  if process_address (env.fetch addr) && !(env.newFiles addr).isEmpty
      && truthy env.driveCreds && truthy env.driveFolder then
    (env.newFiles addr).map (fun f => (f, env.uploadOk f))
  else []

/-- Accumulated state of the per-address loop (lines 166-200). -/
structure LoopState where
  attempted : List Addr
  marked : List Addr
  uploads : List (Addr × Bool)
  processed_count : Nat
deriving DecidableEq

/-- The loop body of `main` lines 169-200: attempt the address; on success
diff the download directory, upload any new files, and append the address to
the ledger; on failure just continue. -/
def addrLoop (env : Env) : List Addr → LoopState → LoopState
  | [], st => st
  | addr :: rest, st =>
    let success := process_address (env.fetch addr)
    let st' :=
      if success then
        { attempted := st.attempted ++ [addr]
          marked := st.marked ++ [addr]
          uploads := st.uploads ++ uploadsFor env addr
          processed_count := st.processed_count + 1 }
      else
        { st with attempted := st.attempted ++ [addr] }
    addrLoop env rest st'

/-- The whole of `main` (lines 65-211), with the external world supplied by
`env`. -/
def runMain (env : Env) : RunResult :=
  if env.excelExists = false then earlyResult env .excelMissing
  else
    match env.excel with
    | none => earlyResult env .excelReadError
    | some df =>
      if df.hasAddrCol = false then earlyResult env .noAddrColumn
      else
        let targets := target_addresses (all_addresses df) (completedOf env)
        if targets = [] then earlyResult env .allDone
        else
          let chunk := targets.take CHUNK_SIZE
          if env.launchOk = false then earlyResult env .launchFailed
          else if env.navRaises = true then crashResult env
          else
            let credsOk := truthy env.userId && truthy env.userPw
            if credsOk && env.loginRaises then crashResult env
            else
              let st := addrLoop env chunk ⟨[], [], [], 0⟩
              { attempted := st.attempted, marked := st.marked,
                uploads := st.uploads,
                ledgerOut := startContent env ++ marksText st.marked,
                sessionStarted := true,
                operatorPrompt := !credsOk && !env.isGithubActions,
                summaryReported := true, summaryCount := st.processed_count,
                quitCalled := env.isGithubActions, outcome := .finished }

/-- A ledger file in the shape this program itself produces: empty, or ending
with a newline (`markDone` always writes a trailing `'\n'`). -/
abbrev LedgerWF (content : List Char) : Prop :=
  content = [] ∨ content.getLast? = some '\n'

/-- A well-formed address string: its own `strip`, nonempty, and free of
newlines — the shape the newline-delimited ledger format can represent. -/
abbrev CleanAddr (a : Addr) : Prop :=
  stripChars a = a ∧ a ≠ [] ∧ '\n' ∉ a

/-- Conditions under which `main` reaches the per-address loop: the Excel
file exists and is readable with the address column, the browser launches,
navigation succeeds, and login (when credentials are supplied) succeeds. -/
abbrev ReachesLoop (env : Env) (df : ExcelTable) : Prop :=
  env.excelExists = true ∧ env.excel = some df ∧ df.hasAddrCol = true ∧
  env.launchOk = true ∧ env.navRaises = false ∧
  ((truthy env.userId && truthy env.userPw) = true → env.loginRaises = false)

/-! ## Closed forms for the per-address loop -/

theorem addrLoop_attempted (env : Env) (chunk : List Addr) (st : LoopState) :
    (addrLoop env chunk st).attempted = st.attempted ++ chunk := by
  induction chunk generalizing st with
  | nil => simp [addrLoop]
  | cons a rest ih =>
    cases h : process_address (env.fetch a) <;>
      simp [addrLoop, h, ih]

theorem addrLoop_marked (env : Env) (chunk : List Addr) (st : LoopState) :
    (addrLoop env chunk st).marked =
      st.marked ++ chunk.filter (fun a => process_address (env.fetch a)) := by
  induction chunk generalizing st with
  | nil => simp [addrLoop]
  | cons a rest ih =>
    cases h : process_address (env.fetch a) <;>
      simp [addrLoop, h, ih, List.filter_cons]

theorem addrLoop_uploads (env : Env) (chunk : List Addr) (st : LoopState) :
    (addrLoop env chunk st).uploads =
      st.uploads ++ (chunk.map (uploadsFor env)).flatten := by
  induction chunk generalizing st with
  | nil => simp [addrLoop]
  | cons a rest ih =>
    cases h : process_address (env.fetch a) with
    | true => simp [addrLoop, h, ih]
    | false =>
      have hu : uploadsFor env a = [] := by simp [uploadsFor, h]
      simp [addrLoop, h, ih, hu]

theorem addrLoop_count (env : Env) (chunk : List Addr) (st : LoopState) :
    (addrLoop env chunk st).processed_count =
      st.processed_count +
        (chunk.filter (fun a => process_address (env.fetch a))).length := by
  induction chunk generalizing st with
  | nil => simp [addrLoop]
  | cons a rest ih =>
    cases h : process_address (env.fetch a)
    · simp [addrLoop, h, ih, List.filter_cons]
    · simp [addrLoop, h, ih, List.filter_cons]
      omega

/-! ## Branch characterizations of `runMain` -/

theorem runMain_loop_spec (env : Env) (df : ExcelTable)
    (h : ReachesLoop env df)
    (hne : target_addresses (all_addresses df) (completedOf env) ≠ []) :
    runMain env =
      { attempted := current_chunk (all_addresses df) (completedOf env),
        marked := (current_chunk (all_addresses df) (completedOf env)).filter
          (fun a => process_address (env.fetch a)),
        uploads := ((current_chunk (all_addresses df) (completedOf env)).map
          (uploadsFor env)).flatten,
        ledgerOut := startContent env ++
          marksText ((current_chunk (all_addresses df) (completedOf env)).filter
            (fun a => process_address (env.fetch a))),
        sessionStarted := true,
        operatorPrompt := !(truthy env.userId && truthy env.userPw)
          && !env.isGithubActions,
        summaryReported := true,
        summaryCount := ((current_chunk (all_addresses df) (completedOf env)).filter
          (fun a => process_address (env.fetch a))).length,
        quitCalled := env.isGithubActions,
        outcome := .finished } := by
  obtain ⟨h1, h2, h3, h4, h5, h6⟩ := h
  have hlogin : (truthy env.userId && truthy env.userPw && env.loginRaises) = false := by
    cases hc : truthy env.userId && truthy env.userPw with
    | false => simp [hc]
    | true => simp [hc, h6 hc]
  simp only [runMain, h1, h2, h3, h4, h5, hlogin, Bool.true_eq_false, if_false,
    if_neg hne, Bool.false_eq_true, reduceIte, current_chunk]
  simp [addrLoop_attempted, addrLoop_marked, addrLoop_uploads, addrLoop_count]

theorem runMain_excelMissing (env : Env) (h : env.excelExists = false) :
    runMain env = earlyResult env .excelMissing := by
  simp [runMain, h]

theorem runMain_readError (env : Env) (h1 : env.excelExists = true)
    (h2 : env.excel = none) :
    runMain env = earlyResult env .excelReadError := by
  simp [runMain, h1, h2]

theorem runMain_noCol (env : Env) (df : ExcelTable) (h1 : env.excelExists = true)
    (h2 : env.excel = some df) (h3 : df.hasAddrCol = false) :
    runMain env = earlyResult env .noAddrColumn := by
  simp [runMain, h1, h2, h3]

theorem runMain_allDone (env : Env) (df : ExcelTable) (h1 : env.excelExists = true)
    (h2 : env.excel = some df) (h3 : df.hasAddrCol = true)
    (h4 : target_addresses (all_addresses df) (completedOf env) = []) :
    runMain env = earlyResult env .allDone := by
  simp [runMain, h1, h2, h3, h4]

/-! ## Deduplication lemmas (`pandas.Series.unique`) -/

theorem mem_dedupAux (l : List Addr) :
    ∀ (seen : List Addr) (a : Addr), a ∈ dedupAux l seen ↔ a ∈ l ∧ a ∉ seen := by
  induction l with
  | nil => simp [dedupAux]
  | cons b rest ih =>
    intro seen a
    by_cases hb : b ∈ seen
    · rw [dedupAux, if_pos hb, ih]
      constructor
      · rintro ⟨h1, h2⟩; exact ⟨List.mem_cons_of_mem b h1, h2⟩
      · rintro ⟨h1, h2⟩
        rcases List.mem_cons.mp h1 with rfl | h1
        · exact absurd hb h2
        · exact ⟨h1, h2⟩
    · rw [dedupAux, if_neg hb]
      constructor
      · intro hmem
        rcases List.mem_cons.mp hmem with rfl | hmem
        · exact ⟨List.mem_cons_self a rest, hb⟩
        · obtain ⟨h1, h2⟩ := (ih (b :: seen) a).mp hmem
          exact ⟨List.mem_cons_of_mem b h1, fun hs => h2 (List.mem_cons_of_mem b hs)⟩
      · rintro ⟨h1, h2⟩
        rcases List.mem_cons.mp h1 with rfl | h1
        · exact List.mem_cons_self a _
        · by_cases hab : a = b
          · subst hab; exact List.mem_cons_self a _
          · refine List.mem_cons_of_mem b ((ih (b :: seen) a).mpr ⟨h1, ?_⟩)
            intro hs
            rcases List.mem_cons.mp hs with h | h
            · exact hab h
            · exact h2 h

theorem dedupAux_sublist (l : List Addr) :
    ∀ seen : List Addr, List.Sublist (dedupAux l seen) l := by
  induction l with
  | nil => intro seen; simp [dedupAux]
  | cons b rest ih =>
    intro seen
    by_cases hb : b ∈ seen
    · rw [dedupAux, if_pos hb]
      exact (ih seen).cons b
    · rw [dedupAux, if_neg hb]
      exact (ih (b :: seen)).cons₂ b

theorem dedupAux_nodup (l : List Addr) :
    ∀ seen : List Addr, (dedupAux l seen).Nodup := by
  induction l with
  | nil => intro seen; simp [dedupAux]
  | cons b rest ih =>
    intro seen
    by_cases hb : b ∈ seen
    · rw [dedupAux, if_pos hb]; exact ih seen
    · rw [dedupAux, if_neg hb]
      refine List.nodup_cons.mpr ⟨fun hmem => ?_, ih (b :: seen)⟩
      exact ((mem_dedupAux rest (b :: seen) b).mp hmem).2 (List.mem_cons_self b seen)

theorem all_addresses_nodup (df : ExcelTable) : (all_addresses df).Nodup :=
  dedupAux_nodup _ []

theorem mem_all_addresses (df : ExcelTable) (a : Addr) :
    a ∈ all_addresses df ↔ some a ∈ df.rows := by
  rw [all_addresses, mem_dedupAux]
  simp [List.mem_filterMap]

/-! ## Work-chunk structure lemmas -/

theorem mem_target_addresses (addrs completed : List Addr) (a : Addr) :
    a ∈ target_addresses addrs completed ↔ a ∈ addrs ∧ a ∉ completed := by
  simp [target_addresses, List.mem_filter]

theorem target_addresses_sublist (addrs completed : List Addr) :
    List.Sublist (target_addresses addrs completed) addrs :=
  List.filter_sublist addrs

theorem current_chunk_sublist (addrs completed : List Addr) :
    List.Sublist (current_chunk addrs completed) (target_addresses addrs completed) :=
  List.take_sublist CHUNK_SIZE _

theorem current_chunk_nodup (df : ExcelTable) (completed : List Addr) :
    (current_chunk (all_addresses df) completed).Nodup :=
  ((current_chunk_sublist _ _).trans (target_addresses_sublist _ _)).nodup
    (all_addresses_nodup df)

/-! ## Properties of `strip` -/

theorem dropWhile_head_false (p : Char → Bool) (l : List Char) :
    l.dropWhile p = [] ∨ ∃ c t, l.dropWhile p = c :: t ∧ p c = false := by
  induction l with
  | nil => exact Or.inl rfl
  | cons c t ih =>
    by_cases h : p c = true
    · rw [List.dropWhile_cons, if_pos h]
      exact ih
    · right
      exact ⟨c, t, by rw [List.dropWhile_cons, if_neg h], by simpa using h⟩

theorem dropWhile_eq_self (p : Char → Bool) (l : List Char)
    (h : ∀ c, l.head? = some c → p c = false) : l.dropWhile p = l := by
  cases l with
  | nil => rfl
  | cons c t =>
    rw [List.dropWhile_cons, h c rfl]
    simp

theorem head?_dropWhile_false (p : Char → Bool) (l : List Char) (c : Char)
    (h : (l.dropWhile p).head? = some c) : p c = false := by
  rcases dropWhile_head_false p l with hd | ⟨c', t, hd, hc⟩
  · rw [hd] at h; cases h
  · rw [hd] at h
    simp only [List.head?_cons, Option.some.injEq] at h
    exact h ▸ hc

theorem getLast?_dropWhile (p : Char → Bool) (l : List Char)
    (h : l.dropWhile p ≠ []) : (l.dropWhile p).getLast? = l.getLast? := by
  induction l with
  | nil => exact absurd rfl h
  | cons c t ih =>
    by_cases hc : p c = true
    · rw [List.dropWhile_cons, if_pos hc] at h ⊢
      rw [ih h]
      have ht : t ≠ [] := by
        intro he
        rw [he] at h
        exact h rfl
      cases t with
      | nil => exact absurd rfl ht
      | cons b t2 => exact List.getLast?_cons_cons.symm
    · rw [List.dropWhile_cons, if_neg hc]

theorem stripChars_head? (l : List Char) (c : Char)
    (h : (stripChars l).head? = some c) : pyIsSpace c = false := by
  rw [stripChars, List.head?_reverse] at h
  have hne : (l.dropWhile pyIsSpace).reverse.dropWhile pyIsSpace ≠ [] := by
    intro he
    rw [he] at h
    cases h
  rw [getLast?_dropWhile pyIsSpace _ hne, List.getLast?_reverse] at h
  exact head?_dropWhile_false pyIsSpace l c h

theorem stripChars_getLast? (l : List Char) (c : Char)
    (h : (stripChars l).getLast? = some c) : pyIsSpace c = false := by
  rw [stripChars, List.getLast?_reverse] at h
  exact head?_dropWhile_false pyIsSpace _ c h

theorem stripChars_eq_self (l : List Char)
    (hh : ∀ c, l.head? = some c → pyIsSpace c = false)
    (hl : ∀ c, l.getLast? = some c → pyIsSpace c = false) :
    stripChars l = l := by
  rw [stripChars, dropWhile_eq_self _ _ hh,
    dropWhile_eq_self _ _ (fun c hc => hl c (by rwa [List.head?_reverse] at hc)),
    List.reverse_reverse]

theorem stripChars_idem (l : List Char) :
    stripChars (stripChars l) = stripChars l :=
  stripChars_eq_self _ (stripChars_head? l) (stripChars_getLast? l)

theorem mem_loadCompleted_stripped {x : Addr} {c : List Char}
    (hx : x ∈ loadCompleted c) : stripChars x = x ∧ x ≠ [] := by
  obtain ⟨hx1, hx2⟩ := List.mem_filter.mp hx
  obtain ⟨line, _, rfl⟩ := List.mem_map.mp hx1
  refine ⟨stripChars_idem line, ?_⟩
  simpa using hx2

theorem not_mem_loadCompleted_of_not_stripped {a : Addr}
    (h : stripChars a ≠ a) (c : List Char) : a ∉ loadCompleted c :=
  fun hc => h (mem_loadCompleted_stripped hc).1

/-! ## Properties of line splitting and ledger concatenation -/

theorem splitOnNl_ne_nil (l : List Char) : splitOnNl l ≠ [] := by
  cases l with
  | nil => simp [splitOnNl]
  | cons c rest =>
    rcases h : splitOnNl rest with _ | ⟨x, xs⟩
    · simp [splitOnNl, h]
    · simp only [splitOnNl, h]
      split <;> simp

theorem splitOnNl_cons_eq (c : Char) (rest : List Char) (x : List Char)
    (xs : List (List Char)) (h : splitOnNl rest = x :: xs) :
    splitOnNl (c :: rest) =
      if c = '\n' then [] :: x :: xs else (c :: x) :: xs := by
  simp only [splitOnNl, h]

theorem two_le_splitOnNl_length (l : List Char) (hne : l ≠ [])
    (hlast : l.getLast? = some '\n') : 2 ≤ (splitOnNl l).length := by
  induction l with
  | nil => exact absurd rfl hne
  | cons c rest ih =>
    rcases h : splitOnNl rest with _ | ⟨x, xs⟩
    · exact absurd h (splitOnNl_ne_nil rest)
    · cases rest with
      | nil =>
        have hc : c = '\n' := by simpa using hlast
        rw [splitOnNl_cons_eq c [] x xs h, if_pos hc]
        simp
      | cons b t =>
        have hlast' : (b :: t).getLast? = some '\n' := by
          rwa [List.getLast?_cons_cons] at hlast
        have ih2 := ih (by simp) hlast'
        rw [h] at ih2
        rw [splitOnNl_cons_eq c (b :: t) x xs h]
        by_cases hc : c = '\n'
        · rw [if_pos hc]; simp
        · rw [if_neg hc]
          simp only [List.length_cons] at ih2 ⊢
          omega

theorem splitOnNl_getLast?_of_nl (l : List Char)
    (hlast : l.getLast? = some '\n') : (splitOnNl l).getLast? = some [] := by
  induction l with
  | nil => simp at hlast
  | cons c rest ih =>
    rcases h : splitOnNl rest with _ | ⟨x, xs⟩
    · exact absurd h (splitOnNl_ne_nil rest)
    · cases rest with
      | nil =>
        have hc : c = '\n' := by simpa using hlast
        subst hc
        rfl
      | cons b t =>
        have hlast' : (b :: t).getLast? = some '\n' := by
          rwa [List.getLast?_cons_cons] at hlast
        have ih2 := ih hlast'
        rw [h] at ih2
        have hlen := two_le_splitOnNl_length (b :: t) (by simp) hlast'
        rw [h] at hlen
        have hxs : xs ≠ [] := by
          cases xs with
          | nil => simp at hlen
          | cons _ _ => simp
        rw [splitOnNl_cons_eq c (b :: t) x xs h]
        by_cases hc : c = '\n'
        · rw [if_pos hc, List.getLast?_cons_cons]
          exact ih2
        · rw [if_neg hc]
          cases xs with
          | nil => exact absurd rfl hxs
          | cons y ys =>
            rw [List.getLast?_cons_cons]
            rwa [List.getLast?_cons_cons] at ih2

theorem splitOnNl_append (a b : List Char) (h : a.getLast? = some '\n') :
    splitOnNl (a ++ b) = (splitOnNl a).dropLast ++ splitOnNl b := by
  induction a with
  | nil => simp at h
  | cons c rest ih =>
    cases rest with
    | nil =>
      have hc : c = '\n' := by simpa using h
      subst hc
      rcases hb : splitOnNl b with _ | ⟨x, xs⟩
      · exact absurd hb (splitOnNl_ne_nil b)
      · rw [List.singleton_append, splitOnNl_cons_eq '\n' b x xs hb, if_pos rfl]
        rfl
    | cons b2 t =>
      have h' : (b2 :: t).getLast? = some '\n' := by
        rwa [List.getLast?_cons_cons] at h
      have ih2 := ih h'
      have hlen := two_le_splitOnNl_length (b2 :: t) (by simp) h'
      rcases hr : splitOnNl (b2 :: t) with _ | ⟨x, xs⟩
      · exact absurd hr (splitOnNl_ne_nil _)
      · rw [hr] at hlen
        have hxs : xs ≠ [] := by
          cases xs with
          | nil => simp at hlen
          | cons _ _ => simp
        rcases hrb : splitOnNl (b2 :: t ++ b) with _ | ⟨y, ys⟩
        · exact absurd hrb (splitOnNl_ne_nil _)
        · rw [hr, hrb] at ih2
          rw [List.cons_append, splitOnNl_cons_eq c _ y ys hrb,
            splitOnNl_cons_eq c (b2 :: t) x xs hr]
          by_cases hc : c = '\n'
          · rw [if_pos hc, if_pos hc, List.dropLast_cons₂, List.cons_append,
              ih2]
          · rw [if_neg hc, if_neg hc]
            cases xs with
            | nil => exact absurd rfl hxs
            | cons z zs =>
              rw [List.dropLast_cons₂] at ih2 ⊢
              rw [List.cons_append] at ih2 ⊢
              injection ih2 with h1 h2
              rw [h1, h2]

theorem loadCompleted_append (a b : List Char) (h : LedgerWF a) :
    loadCompleted (a ++ b) = loadCompleted a ++ loadCompleted b := by
  rcases h with rfl | h
  · rfl
  · have hne := splitOnNl_ne_nil a
    have hlast := splitOnNl_getLast?_of_nl a h
    have hsplit : splitOnNl a = (splitOnNl a).dropLast ++ [[]] := by
      have hg : (splitOnNl a).getLast hne = [] := by
        have h2 := List.getLast?_eq_getLast (splitOnNl a) hne
        rw [h2] at hlast
        injection hlast
      conv_lhs => rw [← List.dropLast_append_getLast hne, hg]
    rw [loadCompleted, splitOnNl_append a b h, List.map_append,
      List.filter_append]
    show _ = loadCompleted a ++ loadCompleted b
    rw [loadCompleted]
    conv_rhs => rw [hsplit]
    rw [List.map_append, List.filter_append]
    simp only [List.map_cons, List.map_nil, List.filter_cons, List.filter_nil]
    have hs0 : stripChars ([] : List Char) = [] := rfl
    simp [hs0, loadCompleted]

theorem splitOnNl_no_nl_append (m : List Char) (hm : '\n' ∉ m)
    (b : List Char) : splitOnNl (m ++ '\n' :: b) = m :: splitOnNl b := by
  induction m with
  | nil =>
    rcases hb : splitOnNl b with _ | ⟨x, xs⟩
    · exact absurd hb (splitOnNl_ne_nil b)
    · rw [List.nil_append, splitOnNl_cons_eq '\n' b x xs hb, if_pos rfl]
  | cons c t ih =>
    have hc : c ≠ '\n' := fun hcc => hm (hcc ▸ List.mem_cons_self c t)
    have ih2 := ih (fun hmem => hm (List.mem_cons_of_mem c hmem))
    rcases hr : splitOnNl (t ++ '\n' :: b) with _ | ⟨y, ys⟩
    · exact absurd hr (splitOnNl_ne_nil _)
    · rw [List.cons_append, splitOnNl_cons_eq c _ y ys hr, if_neg hc]
      rw [hr] at ih2
      injection ih2 with h1 h2
      rw [h1, h2]

theorem loadCompleted_markDoneText (m : List Char) (hm : '\n' ∉ m)
    (b : List Char) :
    loadCompleted (markDoneText m ++ b) =
      (if stripChars m = [] then [] else [stripChars m]) ++ loadCompleted b := by
  rw [markDoneText, List.append_assoc, List.singleton_append, loadCompleted,
    splitOnNl_no_nl_append m hm b, List.map_cons, List.filter_cons]
  by_cases hs : stripChars m = []
  · simp [hs, loadCompleted]
  · simp [hs, List.isEmpty_iff, loadCompleted]

theorem loadCompleted_marksText (ms : List Addr)
    (hm : ∀ m ∈ ms, '\n' ∉ m) :
    loadCompleted (marksText ms) =
      (ms.map stripChars).filter (fun l => !l.isEmpty) := by
  induction ms with
  | nil => rfl
  | cons m rest ih =>
    have h1 : '\n' ∉ m := hm m (List.mem_cons_self m rest)
    have ih2 := ih (fun x hx => hm x (List.mem_cons_of_mem m hx))
    rw [marksText, List.map_cons, List.flatten_cons]
    show loadCompleted (markDoneText m ++ marksText rest) = _
    rw [loadCompleted_markDoneText m h1 _, ih2, List.map_cons, List.filter_cons]
    by_cases hs : stripChars m = []
    · simp [hs]
    · simp [hs, List.isEmpty_iff]

theorem loadCompleted_startContent (env : Env) :
    loadCompleted (startContent env) = completedOf env := by
  rw [startContent, completedOf]
  split <;> rfl

theorem runMain_launchFailed (env : Env) (df : ExcelTable)
    (h1 : env.excelExists = true) (h2 : env.excel = some df)
    (h3 : df.hasAddrCol = true)
    (h4 : target_addresses (all_addresses df) (completedOf env) ≠ [])
    (h5 : env.launchOk = false) :
    runMain env = earlyResult env .launchFailed := by
  simp [runMain, h1, h2, h3, h4, h5]

theorem runMain_navCrash (env : Env) (df : ExcelTable)
    (h1 : env.excelExists = true) (h2 : env.excel = some df)
    (h3 : df.hasAddrCol = true)
    (h4 : target_addresses (all_addresses df) (completedOf env) ≠ [])
    (h5 : env.launchOk = true) (h6 : env.navRaises = true) :
    runMain env = crashResult env := by
  simp [runMain, h1, h2, h3, h4, h5, h6]

theorem runMain_loginCrash (env : Env) (df : ExcelTable)
    (h1 : env.excelExists = true) (h2 : env.excel = some df)
    (h3 : df.hasAddrCol = true)
    (h4 : target_addresses (all_addresses df) (completedOf env) ≠ [])
    (h5 : env.launchOk = true) (h6 : env.navRaises = false)
    (h7 : (truthy env.userId && truthy env.userPw) = true)
    (h8 : env.loginRaises = true) :
    runMain env = crashResult env := by
  simp [runMain, h1, h2, h3, h4, h5, h6, h7, h8]

theorem process_address_eq_true (o : FetchOutcome) :
    process_address o = true ↔ o = FetchOutcome.ok := by
  cases o <;> simp [process_address]

/-! ## Concrete environments used to instantiate the theorems -/

/-- A baseline environment: readable spreadsheet with addresses A, B, C, a
ledger already containing A, unattended (CI) mode without credentials, no
Drive configuration, every fetch succeeding. -/
def baseEnv : Env :=
  { excelExists := true
    excel := some ⟨true, [some ['A'], some ['B'], some ['C']]⟩
    ledgerExists := true
    ledgerContent := ['A', '\n']
    userId := none, userPw := none
    driveCreds := none, driveFolder := none
    isGithubActions := true
    launchOk := true, navRaises := false, loginRaises := false
    fetch := fun _ => .ok
    newFiles := fun _ => []
    uploadOk := fun _ => true }

/-! ## Claim C1 -/

/-- Claim C1: for every address list and completed set, the run computes its
work chunk as the subsequence of the source addresses not in the completed
set, preserving source order, and (once the session is up) attempts exactly
the first `CHUNK_SIZE = 50` of them. -/
theorem C1_work_chunk (env : Env) (df : ExcelTable)
    (h : ReachesLoop env df)
    (hne : target_addresses (all_addresses df) (completedOf env) ≠ []) :
    CHUNK_SIZE = 50
    ∧ List.Sublist (target_addresses (all_addresses df) (completedOf env))
        (all_addresses df)
    ∧ (∀ a, a ∈ target_addresses (all_addresses df) (completedOf env) ↔
        a ∈ all_addresses df ∧ a ∉ completedOf env)
    ∧ current_chunk (all_addresses df) (completedOf env) =
        (target_addresses (all_addresses df) (completedOf env)).take CHUNK_SIZE
    ∧ (runMain env).attempted =
        current_chunk (all_addresses df) (completedOf env) := by
  refine ⟨rfl, target_addresses_sublist _ _, mem_target_addresses _ _, rfl, ?_⟩
  rw [runMain_loop_spec env df h hne]

/-- Witness for C1 at the spec's own example: ledger = {A}, address list =
[A, B, C]; the run attempts exactly [B, C] in that order. -/
theorem C1_witness : (runMain baseEnv).attempted = [['B'], ['C']] := by
  have h := C1_work_chunk baseEnv ⟨true, [some ['A'], some ['B'], some ['C']]⟩
    (by decide) (by decide)
  rw [h.2.2.2.2]
  decide

/-! ## Claim C2 -/

/-- Claim C2: when the ledger already contains every source address, the run
performs zero fetch attempts, appends nothing, leaves the ledger file
unchanged, reports completion and stops before any browser session is
started. -/
theorem C2_idempotent (env : Env) (df : ExcelTable)
    (h1 : env.excelExists = true) (h2 : env.excel = some df)
    (h3 : df.hasAddrCol = true)
    (hall : ∀ a ∈ all_addresses df, a ∈ completedOf env) :
    (runMain env).attempted = [] ∧ (runMain env).marked = []
    ∧ (runMain env).ledgerOut = startContent env
    ∧ (runMain env).sessionStarted = false
    ∧ (runMain env).outcome = EndState.allDone := by
  have h4 : target_addresses (all_addresses df) (completedOf env) = [] := by
    rw [target_addresses, List.filter_eq_nil_iff]
    intro a ha
    simp [hall a ha]
  rw [runMain_allDone env df h1 h2 h3 h4]
  exact ⟨rfl, rfl, rfl, rfl, rfl⟩

/-- The baseline environment restricted to the single already-completed
address A. -/
def envC2 : Env := { baseEnv with excel := some ⟨true, [some ['A']]⟩ }

/-- Witness for C2: address list [A], ledger already containing A — nothing
is attempted and the ledger file is unchanged. -/
theorem C2_witness :
    (runMain envC2).attempted = [] ∧ (runMain envC2).ledgerOut = ['A', '\n'] := by
  have h := C2_idempotent envC2 ⟨true, [some ['A']]⟩ rfl rfl rfl (by decide)
  exact ⟨h.1, by rw [h.2.2.1]; decide⟩

/-! ## Claim C3 -/

/-- Environment in which fetching address A raises an exception indicating
the session is unusable (e.g. an unexpected redirect to a login page), while
address B would succeed. -/
def envC3 : Env :=
  { baseEnv with
    ledgerExists := false, ledgerContent := [],
    excel := some ⟨true, [some ['A'], some ['B']]⟩,
    fetch := fun a => if a = ['A'] then .exn true else .ok }

/-- Claim C3 is false on the code: the fetch of address A fails with a
session-unusable exception, yet the address after it (B) is still attempted
in the same run — `process_address` swallows every exception and the loop
continues — and B is even recorded done. -/
theorem C3_counterexample :
    envC3.fetch ['A'] = FetchOutcome.exn true
    ∧ (runMain envC3).attempted = [['A'], ['B']]
    ∧ (runMain envC3).marked = [['B']] := by
  decide

/-- Claim C3 as amended: a fetch failure indicating the session is unusable
is caught inside `process_address` and treated exactly like a soft failure —
the run still attempts every address of the chunk in order (no
short-circuit), and exactly the addresses whose fetch succeeded (before or
after the failure) are recorded done. -/
theorem C3_amended (env : Env) (df : ExcelTable)
    (h : ReachesLoop env df)
    (hne : target_addresses (all_addresses df) (completedOf env) ≠ []) :
    (runMain env).attempted = current_chunk (all_addresses df) (completedOf env)
    ∧ (runMain env).marked =
        (current_chunk (all_addresses df) (completedOf env)).filter
          (fun a => process_address (env.fetch a)) := by
  rw [runMain_loop_spec env df h hne]
  exact ⟨rfl, rfl⟩

/-- Witness for the amended C3 at `envC3`: the whole chunk [A, B] is
attempted despite the session-unusable failure on A, and only B is marked. -/
theorem C3_witness :
    (runMain envC3).attempted = [['A'], ['B']]
    ∧ (runMain envC3).marked =
        [['A'], ['B']].filter (fun a => process_address (envC3.fetch a)) := by
  have h := C3_amended envC3 ⟨true, [some ['A'], some ['B']]⟩ (by decide) (by decide)
  refine ⟨?_, ?_⟩
  · rw [h.1]; decide
  · rw [h.2]; decide

/-! ## Claim C4 -/

/-- Claim C4: an address whose fetch succeeds is marked done in the ledger
regardless of the publish outcome — each new file is handed to
`upload_to_drive` (when Drive is configured) and its Boolean result is
logged but never consulted; the zero-new-files case likewise still marks
the address done. -/
theorem C4_publish_isolation (env : Env) (df : ExcelTable) (addr : Addr)
    (h : ReachesLoop env df)
    (haddr : addr ∈ current_chunk (all_addresses df) (completedOf env))
    (hok : env.fetch addr = FetchOutcome.ok) :
    addr ∈ (runMain env).marked
    ∧ (∀ f ∈ env.newFiles addr, truthy env.driveCreds = true →
        truthy env.driveFolder = true →
        (f, env.uploadOk f) ∈ (runMain env).uploads)
    ∧ (runMain env).outcome = EndState.finished := by
  have hne : target_addresses (all_addresses df) (completedOf env) ≠ [] := by
    intro he
    rw [current_chunk, he] at haddr
    simp at haddr
  rw [runMain_loop_spec env df h hne]
  refine ⟨?_, ?_, rfl⟩
  · exact List.mem_filter.mpr ⟨haddr, by simp [hok, process_address]⟩
  · intro f hf hc hd
    refine List.mem_flatten.mpr ⟨uploadsFor env addr, List.mem_map_of_mem _ haddr, ?_⟩
    have hne2 : (env.newFiles addr).isEmpty = false := by
      cases hnf : env.newFiles addr with
      | nil => rw [hnf] at hf; cases hf
      | cons _ _ => simp
    rw [uploadsFor, hok]
    simp only [process_address, hne2, hc, hd, Bool.not_false, Bool.and_true,
      Bool.true_and, if_pos]
    exact List.mem_map_of_mem _ hf

/-- Environment where fetching B succeeds but the upload of its downloaded
file fails. -/
def envC4 : Env :=
  { baseEnv with
    driveCreds := some ['c'], driveFolder := some ['d'],
    newFiles := fun a => if a = ['B'] then [['f']] else [],
    uploadOk := fun _ => false }

/-- Witness for C4: the upload of file f fails, yet B is marked done and the
failed upload attempt was made. -/
theorem C4_witness :
    ['B'] ∈ (runMain envC4).marked ∧ (['f'], false) ∈ (runMain envC4).uploads := by
  have h := C4_publish_isolation envC4 ⟨true, [some ['A'], some ['B'], some ['C']]⟩
    ['B'] (by decide) (by decide) (by decide)
  refine ⟨h.1, ?_⟩
  have h2 := h.2.1 ['f'] (by decide) rfl rfl
  simpa using h2

/-- Membership in a `take`-prefix survives filtering: an element among the
first `n` of a list that satisfies the filter is among the first `n` of the
filtered list (its predecessors can only be removed). -/
theorem mem_take_filter {p : Addr → Bool} {X : Addr} :
    ∀ (l : List Addr) (n : Nat), X ∈ l.take n → p X = true →
      X ∈ (l.filter p).take n := by
  intro l
  induction l with
  | nil => intro n h _; simp at h
  | cons y ys ih =>
    intro n h hp
    cases n with
    | zero => simp at h
    | succ m =>
      rw [List.take_succ_cons] at h
      rcases List.mem_cons.mp h with rfl | h2
      · rw [List.filter_cons, if_pos hp, List.take_succ_cons]
        exact List.mem_cons_self X _
      · by_cases hy : p y = true
        · rw [List.filter_cons, if_pos hy, List.take_succ_cons]
          exact List.mem_cons_of_mem y (ih m h2 hp)
        · rw [List.filter_cons, if_neg hy]
          have h3 := ih m h2 hp
          have h4 : (ys.filter p).take m = ((ys.filter p).take (m + 1)).take m := by
            rw [List.take_take, Nat.min_def]
            simp
          rw [h4] at h3
          exact List.take_subset m _ h3

/-! ## Claim C5 -/

/-- Claim C5: an address X of the chunk whose fetch soft-fails is absent
from the loaded ledger after the run, the run continues through the rest of
the chunk, and X is retried: it is in the next run's remaining list and in
the next run's work chunk — unconditionally, since the completed set only
grows, so the addresses preceding X in the remaining list can only shrink
and X stays within the first `CHUNK_SIZE`.
(Hypotheses: the starting ledger file is one this program can produce —
empty or newline-terminated — and the chunk's addresses are well-formed
ledger entries: stripped, nonempty, newline-free.) -/
theorem C5_soft_failure (env : Env) (df : ExcelTable) (X : Addr)
    (h : ReachesLoop env df)
    (hwf : LedgerWF (startContent env))
    (hclean : ∀ a ∈ current_chunk (all_addresses df) (completedOf env), CleanAddr a)
    (hX : X ∈ current_chunk (all_addresses df) (completedOf env))
    (hsoft : env.fetch X ≠ FetchOutcome.ok) :
    X ∉ loadCompleted ((runMain env).ledgerOut)
    ∧ (runMain env).attempted = current_chunk (all_addresses df) (completedOf env)
    ∧ X ∈ target_addresses (all_addresses df)
        (loadCompleted ((runMain env).ledgerOut))
    ∧ X ∈ current_chunk (all_addresses df)
        (loadCompleted ((runMain env).ledgerOut)) := by
  have hne : target_addresses (all_addresses df) (completedOf env) ≠ [] := by
    intro he
    rw [current_chunk, he] at hX
    simp at hX
  have hXtarget : X ∈ target_addresses (all_addresses df) (completedOf env) :=
    (current_chunk_sublist _ _).subset hX
  have hXall : X ∈ all_addresses df :=
    ((mem_target_addresses _ _ X).mp hXtarget).1
  have hXnotdone : X ∉ completedOf env :=
    ((mem_target_addresses _ _ X).mp hXtarget).2
  rw [runMain_loop_spec env df h hne]
  set chunk := current_chunk (all_addresses df) (completedOf env) with hchunk
  set marked := chunk.filter (fun a => process_address (env.fetch a)) with hmarked
  have hmarkednl : ∀ m ∈ marked, '\n' ∉ m := by
    intro m hm
    exact (hclean m (List.mem_of_mem_filter hm)).2.2
  have hnotmem : X ∉ loadCompleted (startContent env ++ marksText marked) := by
    rw [loadCompleted_append _ _ hwf, loadCompleted_startContent env,
      List.mem_append]
    rintro (hmem | hmem)
    · exact hXnotdone hmem
    · rw [loadCompleted_marksText marked hmarkednl] at hmem
      obtain ⟨hmem1, _⟩ := List.mem_filter.mp hmem
      obtain ⟨m, hm, hms⟩ := List.mem_map.mp hmem1
      have hmchunk : m ∈ chunk := List.mem_of_mem_filter hm
      have : m = X := by rw [← (hclean m hmchunk).1, hms]
      subst this
      rw [hmarked] at hm
      have hpa : process_address (env.fetch m) = true :=
        (List.mem_filter.mp hm).2
      exact hsoft ((process_address_eq_true _).mp hpa)
  have hCsub : ∀ b, b ∈ completedOf env →
      b ∈ loadCompleted (startContent env ++ marksText marked) := by
    intro b hb
    rw [loadCompleted_append _ _ hwf, loadCompleted_startContent env,
      List.mem_append]
    exact Or.inl hb
  have hTnext : target_addresses (all_addresses df)
        (loadCompleted (startContent env ++ marksText marked)) =
      (target_addresses (all_addresses df) (completedOf env)).filter
        (fun a => decide (a ∉ loadCompleted (startContent env ++ marksText marked))) := by
    rw [target_addresses, target_addresses, List.filter_filter]
    refine (List.filter_congr ?_).symm
    intro a _
    by_cases ha : a ∈ loadCompleted (startContent env ++ marksText marked)
    · simp [ha]
    · have haC : a ∉ completedOf env := fun hc => ha (hCsub a hc)
      simp [ha, haC]
  refine ⟨hnotmem, rfl, ?_, ?_⟩
  · exact (mem_target_addresses _ _ X).mpr ⟨hXall, hnotmem⟩
  · rw [current_chunk, hTnext]
    refine mem_take_filter _ CHUNK_SIZE ?_ ?_
    · rw [hchunk, current_chunk] at hX
      exact hX
    · simp [hnotmem]

/-- Environment where fetching A times out at the search box (soft failure)
while B succeeds, starting from an empty ledger. -/
def envC5 : Env :=
  { baseEnv with
    ledgerExists := false, ledgerContent := [],
    excel := some ⟨true, [some ['A'], some ['B']]⟩,
    fetch := fun a => if a = ['A'] then .searchTimeout else .ok }

/-- Witness for C5: the soft-failed address A is absent from the resulting
ledger, the run went on to B, and A is in the next run's work chunk. -/
theorem C5_witness :
    ['A'] ∉ loadCompleted ((runMain envC5).ledgerOut)
    ∧ (runMain envC5).attempted = [['A'], ['B']]
    ∧ ['A'] ∈ current_chunk (all_addresses ⟨true, [some ['A'], some ['B']]⟩)
        (loadCompleted ((runMain envC5).ledgerOut)) := by
  have h := C5_soft_failure envC5 ⟨true, [some ['A'], some ['B']]⟩ ['A']
    (by decide) (by decide) (by decide) (by decide) (by decide)
  refine ⟨h.1, by rw [h.2.1]; decide, h.2.2.2⟩

/-! ## Claim C6 -/

/-- Two-run scenario for C6: address "A " (trailing space), empty starting
ledger; the second run reuses the ledger file the first run produced. -/
def envC6 : Env :=
  { baseEnv with
    ledgerExists := false, ledgerContent := [],
    excel := some ⟨true, [some ['A', ' ']]⟩ }

/-- The second run over the ledger produced by the first. -/
def envC6b : Env :=
  { envC6 with ledgerExists := true, ledgerContent := (runMain envC6).ledgerOut }

/-- Claim C6 is false on the code: the address "A " (trailing space) is
appended to the ledger by the first run, yet the second run appends it
again — `markDone` writes it verbatim while loading strips each line, so
the written entry never matches — leaving the address twice in the file. -/
theorem C6_counterexample :
    (runMain envC6).marked = [['A', ' ']]
    ∧ (runMain envC6b).marked = [['A', ' ']]
    ∧ (runMain envC6b).ledgerOut = ['A', ' ', '\n', 'A', ' ', '\n'] := by
  decide

/-- Claim C6 as amended: within a single run no address is appended twice
(the list of appended addresses has no duplicates), and an address that is
in the loaded completed set is excluded from the work chunk, hence neither
re-attempted nor re-recorded that run. Across runs this exclusion only
reaches addresses equal to their stripped form: an address with leading or
trailing whitespace is re-appended on every run (see the counterexample). -/
theorem C6_amended (env : Env) (a : Addr) :
    (runMain env).marked.Nodup
    ∧ (a ∈ completedOf env →
        a ∉ (runMain env).marked ∧ a ∉ (runMain env).attempted) := by
  cases h1 : env.excelExists with
  | false =>
    rw [runMain_excelMissing env h1]
    exact ⟨List.nodup_nil, fun _ => ⟨List.not_mem_nil a, List.not_mem_nil a⟩⟩
  | true =>
    cases h2 : env.excel with
    | none =>
      rw [runMain_readError env h1 h2]
      exact ⟨List.nodup_nil, fun _ => ⟨List.not_mem_nil a, List.not_mem_nil a⟩⟩
    | some df =>
      cases h3 : df.hasAddrCol with
      | false =>
        rw [runMain_noCol env df h1 h2 h3]
        exact ⟨List.nodup_nil, fun _ => ⟨List.not_mem_nil a, List.not_mem_nil a⟩⟩
      | true =>
        by_cases h4 : target_addresses (all_addresses df) (completedOf env) = []
        · rw [runMain_allDone env df h1 h2 h3 h4]
          exact ⟨List.nodup_nil, fun _ => ⟨List.not_mem_nil a, List.not_mem_nil a⟩⟩
        · have hnotchunk : a ∈ completedOf env →
              a ∉ current_chunk (all_addresses df) (completedOf env) := by
            intro hmem hchunk
            exact ((mem_target_addresses _ _ a).mp
              ((current_chunk_sublist _ _).subset hchunk)).2 hmem
          cases h5 : env.launchOk with
          | false =>
            rw [runMain_launchFailed env df h1 h2 h3 h4 h5]
            exact ⟨List.nodup_nil, fun _ => ⟨List.not_mem_nil a, List.not_mem_nil a⟩⟩
          | true =>
            cases h6 : env.navRaises with
            | true =>
              rw [runMain_navCrash env df h1 h2 h3 h4 h5 h6]
              exact ⟨List.nodup_nil, fun _ => ⟨List.not_mem_nil a, List.not_mem_nil a⟩⟩
            | false =>
              cases h7 : truthy env.userId && truthy env.userPw && env.loginRaises with
              | true =>
                have h7a : (truthy env.userId && truthy env.userPw) = true := by
                  cases hu : truthy env.userId && truthy env.userPw
                  · rw [hu] at h7; simp at h7
                  · rfl
                have h7b : env.loginRaises = true := by
                  cases hl : env.loginRaises
                  · rw [hl] at h7; simp at h7
                  · rfl
                rw [runMain_loginCrash env df h1 h2 h3 h4 h5 h6 h7a h7b]
                exact ⟨List.nodup_nil, fun _ => ⟨List.not_mem_nil a, List.not_mem_nil a⟩⟩
              | false =>
                have hloop : ReachesLoop env df := by
                  refine ⟨h1, h2, h3, h5, h6, fun hc => ?_⟩
                  cases hl : env.loginRaises
                  · rfl
                  · rw [hc, hl] at h7; simp at h7
                rw [runMain_loop_spec env df hloop h4]
                refine ⟨?_, fun hmem => ⟨?_, ?_⟩⟩
                · exact (List.filter_sublist _).nodup
                    (current_chunk_nodup df (completedOf env))
                · intro hm
                  exact hnotchunk hmem (List.mem_of_mem_filter hm)
                · exact hnotchunk hmem

/-- Witness for the amended C6: applied to the second whitespace run — the
appended list has no duplicates and the (stripped) entry "A" loaded from the
ledger is not re-appended. -/
theorem C6_witness :
    (runMain envC6b).marked.Nodup
    ∧ (['A'] ∈ completedOf envC6b → ['A'] ∉ (runMain envC6b).marked) := by
  have h := C6_amended envC6b ['A']
  exact ⟨h.1, fun hm => (h.2 hm).1⟩

/-! ## Claim C7 -/

/-- Claim C7 is false on the code: in the unattended (GitHub Actions)
environment with no credentials supplied, the run does not raise — it logs a
warning and proceeds to attempt the chunk, finishing normally with no
operator prompt. -/
theorem C7_counterexample :
    baseEnv.isGithubActions = true ∧ baseEnv.userId = none
    ∧ (runMain baseEnv).attempted = [['B'], ['C']]
    ∧ (runMain baseEnv).outcome = EndState.finished
    ∧ (runMain baseEnv).operatorPrompt = false := by
  decide

/-- Claim C7 as amended: when no (nonempty) credentials are supplied the run
never raises: in an unattended (CI) context it logs a warning and proceeds
to attempt the chunk without authentication; in an interactive context it
blocks for operator confirmation (`input()`) and then proceeds. -/
theorem C7_amended (env : Env) (df : ExcelTable)
    (h : ReachesLoop env df)
    (hne : target_addresses (all_addresses df) (completedOf env) ≠ [])
    (hnc : (truthy env.userId && truthy env.userPw) = false) :
    (runMain env).operatorPrompt = !env.isGithubActions
    ∧ (runMain env).attempted = current_chunk (all_addresses df) (completedOf env)
    ∧ (runMain env).outcome = EndState.finished := by
  rw [runMain_loop_spec env df h hne]
  refine ⟨?_, rfl, rfl⟩
  simp [hnc]

/-- The baseline environment switched to interactive (local) mode. -/
def envC7L : Env := { baseEnv with isGithubActions := false }

/-- Witness for the amended C7: no prompt in CI mode, an operator prompt in
local mode, with the chunk attempted either way. -/
theorem C7_witness :
    (runMain baseEnv).operatorPrompt = false
    ∧ (runMain envC7L).operatorPrompt = true
    ∧ (runMain envC7L).attempted = [['B'], ['C']] := by
  have h1 := C7_amended baseEnv ⟨true, [some ['A'], some ['B'], some ['C']]⟩
    (by decide) (by decide) rfl
  have h2 := C7_amended envC7L ⟨true, [some ['A'], some ['B'], some ['C']]⟩
    (by decide) (by decide) rfl
  exact ⟨by rw [h1.1]; rfl, by rw [h2.1]; rfl, by rw [h2.2.1]; decide⟩

/-! ## Claim C8 -/

/-- Claim C8: the loaded address list is the source rows' address values
with missing cells dropped, deduplicated preserving first-seen order (a
duplicate-free subsequence of the kept cells containing exactly the row
values); and when the table cannot be read, or lacks the address column,
the run stops pre-session with the corresponding error outcome and no
address is attempted. -/
theorem C8_address_source (env : Env) (df : ExcelTable)
    (hex : env.excelExists = true) :
    (List.Sublist (all_addresses df) (df.rows.filterMap id)
      ∧ (all_addresses df).Nodup
      ∧ (∀ a, a ∈ all_addresses df ↔ some a ∈ df.rows))
    ∧ (env.excel = none → (runMain env).attempted = []
        ∧ (runMain env).sessionStarted = false
        ∧ (runMain env).outcome = EndState.excelReadError)
    ∧ (env.excel = some df → df.hasAddrCol = false →
        (runMain env).attempted = [] ∧ (runMain env).sessionStarted = false
        ∧ (runMain env).outcome = EndState.noAddrColumn) := by
  refine ⟨⟨dedupAux_sublist _ [], all_addresses_nodup df, mem_all_addresses df⟩,
    ?_, ?_⟩
  · intro h2
    rw [runMain_readError env hex h2]
    exact ⟨rfl, rfl, rfl⟩
  · intro h2 h3
    rw [runMain_noCol env df hex h2 h3]
    exact ⟨rfl, rfl, rfl⟩

/-- Environment whose spreadsheet cannot be read. -/
def envC8 : Env := { baseEnv with excel := none }

/-- A table with a missing cell and a duplicated address. -/
def dfC8 : ExcelTable := ⟨true, [some ['A'], none, some ['A'], some ['B']]⟩

/-- Witness for C8: dedup keeps first-seen order and drops the missing cell,
and an unreadable table ends the run pre-session with nothing attempted. -/
theorem C8_witness :
    all_addresses dfC8 = [['A'], ['B']]
    ∧ (runMain envC8).attempted = []
    ∧ (runMain envC8).sessionStarted = false
    ∧ (runMain envC8).outcome = EndState.excelReadError := by
  have h := C8_address_source envC8 dfC8 rfl
  exact ⟨by decide, (h.2.1 rfl).1, (h.2.1 rfl).2.1, (h.2.1 rfl).2.2⟩

/-! ## Claim C9 -/

/-- Environment where credentials are supplied but `perform_login` raises
(e.g. the login button is never found), before any address is attempted. -/
def envC9 : Env :=
  { baseEnv with
    userId := some ['u'], userPw := some ['p'], loginRaises := true }

/-- Claim C9 fails on the code (code bug): when a fatal error occurs during
authentication before any address is attempted, `processed_count` (assigned
only at line 167) is still unbound, so the summary log in the `finally`
block raises `NameError` — no final summary is reported and `driver.quit()`
(line 209) is never reached, even in CI mode. -/
theorem C9_crash_in_finally :
    (runMain envC9).sessionStarted = true
    ∧ (runMain envC9).attempted = []
    ∧ (runMain envC9).outcome = EndState.crashedInFinally
    ∧ (runMain envC9).summaryReported = false
    ∧ (runMain envC9).quitCalled = false
    ∧ envC9.isGithubActions = true := by
  decide

/-! ## Claim C10 -/

/-- Claim C10: ledger membership is asymmetric around whitespace — every
entry of the loaded completed set is its own `strip`, so an address that is
not its own `strip` (leading/trailing whitespace, or whitespace-only) is
never a member of the loaded set, in particular not after `markDone` wrote
it, and it stays in the remaining list of every subsequent run whose source
list contains it. -/
theorem C10_whitespace_asymmetry (addr : Addr) (h : stripChars addr ≠ addr) :
    (∀ c : List Char, addr ∉ loadCompleted c)
    ∧ (∀ c : List Char, addr ∉ loadCompleted (c ++ markDoneText addr))
    ∧ (∀ (addrs : List Addr) (c : List Char),
        addr ∈ addrs → addr ∈ target_addresses addrs (loadCompleted c)) := by
  refine ⟨not_mem_loadCompleted_of_not_stripped h,
    fun c => not_mem_loadCompleted_of_not_stripped h _,
    fun addrs c hmem => ?_⟩
  exact (mem_target_addresses addrs _ addr).mpr
    ⟨hmem, not_mem_loadCompleted_of_not_stripped h c⟩

/-- Witness for C10 at the address "A " (trailing space): it is not its own
strip, and marking it done does not make it a member of the loaded set. -/
theorem C10_witness :
    stripChars ['A', ' '] ≠ ['A', ' ']
    ∧ ['A', ' '] ∉ loadCompleted (markDoneText ['A', ' ']) := by
  refine ⟨by decide, ?_⟩
  exact (C10_whitespace_asymmetry ['A', ' '] (by decide)).1 (markDoneText ['A', ' '])
